import Mathlib

/-!
Shallow embedding of the Pystone benchmark engine of `main.py`
(class `PystoneBenchmark` and its driver `run_benchmark`), together with
proofs about the workload kernel, the chunked warm-up and timed loops,
progress reporting, cooperative cancellation and run-to-run state reset.

Modelling conventions:
* Python `int` is `Int`; Python floor division `//` is `Int.fdiv`.
* Python lists are `List`; indexing uses Python semantics (negative
  indices count from the end, out-of-range raises), modelled by `Option`.
* `time.perf_counter` readings are an abstract clock `Nat → ℚ` giving the
  value of the k-th `clock()` call of `run_benchmark`.
* The `should_stop` flag is written concurrently by the GUI thread; the
  value observed at the k-th chunk-boundary check is `sched k`.
* Raised exceptions are `none` / dedicated error values; `Record` objects
  live in an arena (`heap : List Rec`) addressed by allocation index, and
  a Python `None` pointer is `Option.none`.
-/

namespace Pystone

/-- `[Ident1, Ident2, Ident3, Ident4, Ident5] = range(1, 6)` -/
def Ident1 : Nat := 1

def Ident2 : Nat := 2

def Ident3 : Nat := 3

def Ident4 : Nat := 4

def Ident5 : Nat := 5

/-- Python list index resolution: negative indices count from the end;
a resolved index must land in `[0, n)`, otherwise `IndexError` (`none`). -/
def pyIdx (n : Nat) (i : Int) : Option Nat :=
  let j := if i < 0 then i + n else i
  if 0 ≤ j ∧ j < n then some j.toNat else none

/-- Python `l[i]` (read). -/
def pyGet {α : Type} (l : List α) (i : Int) : Option α := do
  let j ← pyIdx l.length i
  l[j]?

/-- Python `l[i] = v`. -/
def pySet {α : Type} (l : List α) (i : Int) (v : α) : Option (List α) :=
  (pyIdx l.length i).map fun j => l.set j v

/-- Python `l[i][j]` for a list of lists. -/
def pyGet2 (l : List (List Int)) (i j : Int) : Option Int := do
  let row ← pyGet l i
  pyGet row j

/-- Python `l[i][j] = v`: the row objects of `Array2Glob` are pairwise
distinct lists (built with `row[:]`), so in-place row mutation is the same
as replacing row `i` by its updated copy. -/
def pySet2 (l : List (List Int)) (i j : Int) (v : Int) : Option (List (List Int)) := do
  let row ← pyGet l i
  let row2 ← pySet row j v
  pySet l i row2

/-- Number of elements of Python `range(start, stop, step)` for positive
`step`: `⌈(stop − start) / step⌉`, clamped at zero. -/
def rangeLen (start stop step : Int) : Nat :=
  ((stop - start + step - 1).fdiv step).toNat

/-- Python `range(start, stop, step)` for positive `step`, as the list of
values it iterates over. -/
def pyRange (start stop step : Int) : List Int :=
  (List.range (rangeLen start stop step)).map fun (k : Nat) => start + step * (k : Int)

/-- Python lexicographic `<` on strings (single code points compare by
ordinal, shorter strict prefixes are smaller). -/
def pyStrLt : List Char → List Char → Bool
  | [], [] => false
  | [], _ :: _ => true
  | _ :: _, [] => false
  | a :: as, b :: bs =>
    if a.toNat < b.toNat then true
    else if b.toNat < a.toNat then false
    else pyStrLt as bs

/-- ASCII apostrophe, kept out of string literals. -/
def apos : Char := Char.ofNat 39

/-- The constant `String1Loc` (DHRYSTONE PROGRAM, 1-apos-ST STRING). -/
def string1Loc : List Char :=
  "DHRYSTONE PROGRAM, 1".toList ++ [apos] ++ "ST STRING".toList

/-- The constant `String2Loc` (DHRYSTONE PROGRAM, 2-apos-ND STRING). -/
def string2Loc : List Char :=
  "DHRYSTONE PROGRAM, 2".toList ++ [apos] ++ "ND STRING".toList

/-- A `Record` object.  Field defaults in `Record.__init__` are
`PtrComp=None, Discr=0, EnumComp=0, IntComp=0, StringComp=0`; the
`StringComp` default is the integer `0`, modelled as `none` (it is never
read for control flow).  `ptrComp` is an arena index or Python `None`. -/
structure Rec where
  ptrComp : Option Nat
  discr : Nat
  enumComp : Nat
  intComp : Int
  stringComp : Option (List Char)
deriving DecidableEq

/-- The default `Record()`. -/
def defaultRecord : Rec :=
  { ptrComp := none, discr := 0, enumComp := 0, intComp := 0, stringComp := none }

/-- The mutable state of a `PystoneBenchmark` instance that the workload
touches: the global scalars and arrays set in `setup_globals`, the two
global record pointers, and the arena of allocated `Record` objects. -/
structure GState where
  intGlob : Int
  boolGlob : Bool
  char1Glob : Char
  char2Glob : Char
  array1Glob : List Int
  array2Glob : List (List Int)
  ptrGlb : Option Nat
  ptrGlbNext : Option Nat
  heap : List Rec
deriving DecidableEq

/-- `Option.bind` under a name the code generator will not inline:
inlining long `Option` bind chains makes compilation of `Proc1` blow up
exponentially.  Semantically this is exactly `Option.bind`. -/
@[noinline] def obind {α β : Type} (x : Option α) (f : α → Option β) : Option β :=
  Option.bind x f

/-- Arena read `h[i]`. -/
def hGet (h : List Rec) (i : Nat) : Option Rec := h[i]?

/-- Arena field update: read record `i`, apply `f`, write it back. -/
def hMod (h : List Rec) (i : Nat) (f : Rec → Rec) : Option (List Rec) :=
  (h[i]?).map fun r => h.set i (f r)

/-- `Func1`: returns `Ident1` when the characters differ, else `Ident2`. -/
def Func1 (charPar1 charPar2 : Char) : Nat :=
  let charLoc1 := charPar1
  let charLoc2 := charLoc1
  if charLoc2 ≠ charPar2 then Ident1 else Ident2

/-- `Func3` has body `pass`: it returns Python `None` (falsy). -/
def Func3 (_enumParIn : Nat) : Option Bool := none

/-- `Proc6`: 5-way dispatch on the enumeration value; reads `IntGlob`.
`not self.Func3(...)` is always true since `Func3` returns `None`. -/
def Proc6 (intGlob : Int) (enumParIn : Nat) : Nat :=
  let enumParOut := enumParIn
  let enumParOut := if (Func3 enumParIn).getD false then enumParOut else Ident4
  if enumParIn = Ident1 then Ident1
  else if enumParIn = Ident2 then
    (if intGlob > 100 then Ident1 else Ident4)
  else if enumParIn = Ident3 then Ident2
  else if enumParIn = Ident4 then enumParOut
  else if enumParIn = Ident5 then Ident3
  else enumParOut

/-- `Proc7(IntParI1, IntParI2) = IntParI2 + (IntParI1 + 2)`. -/
def Proc7 (intParI1 intParI2 : Int) : Int :=
  let intLoc := intParI1 + 2
  let intParOut := intParI2 + intLoc
  intParOut

/-- One pass of the `while IntLoc <= 1` loop of `Func2`.  The loop body changes
`IntLoc` only inside its `if` branch, so it makes at most `2 - IntLoc`
productive passes; exhausting that exact budget with the loop condition
still true means the loop never terminates (`none`). -/
def Func2Go (strParI1 strParI2 : List Char) :
    Nat → Int → Option Char → Option (Int × Option Char)
  | fuel, intLoc, charLoc =>
    if intLoc ≤ 1 then
      match fuel with
      | 0 => none
      | f + 1 => do
        let c1 ← pyGet strParI1 intLoc
        let c2 ← pyGet strParI2 (intLoc + 1)
        if Func1 c1 c2 = Ident1 then Func2Go strParI1 strParI2 f (intLoc + 1) (some 'A')
        else Func2Go strParI1 strParI2 f intLoc charLoc
    else some (intLoc, charLoc)

/-- `Func2`: compares characters of the two strings, then the strings
themselves; returns `TRUE = 1` / `FALSE = 0`.  `none` models an
`IndexError`, the unbounded loop never exiting, or the read of the
then-unassigned local `CharLoc`. -/
def Func2 (strParI1 strParI2 : List Char) : Option Int := do
  let (intLoc, charLocOpt) ← Func2Go strParI1 strParI2 1 1 none
  let charLoc ← charLocOpt
  let intLoc := if 'W' ≤ charLoc ∧ charLoc ≤ 'Z' then (7 : Int) else intLoc
  if charLoc = 'X' then some 1
  else if pyStrLt strParI2 strParI1 then
    -- StrParI1 > StrParI2 branch: IntLoc = IntLoc + 7 (dead), return TRUE
    let _intLoc := intLoc + 7
    some 1
  else some 0

/-- Result of `Proc2`: normal return, the read of the unassigned local
`EnumLoc` (an `UnboundLocalError`), or the `while 1` loop spinning past
its fuel bound. -/
inductive Proc2Res where
  | ok (v : Int)
  | unboundLocal
  | divergence
deriving DecidableEq

/-- The `while 1` loop of `Proc2`, one constructor step per pass.  When
`Char1Glob == 'A'` a pass decrements `IntLoc`, computes `IntParIO` and sets
`EnumLoc = Ident1`; the trailing `if EnumLoc == Ident1` then breaks, or
faults if `EnumLoc` was never assigned. -/
def Proc2Go (char1Glob : Char) (intGlob : Int) :
    Nat → Int → Int → Option Nat → Proc2Res
  | 0, _, _, _ => Proc2Res.divergence
  | f + 1, intLoc, intParInOut, enumLoc =>
    let (intLoc, intParInOut, enumLoc) :=
      if char1Glob = 'A' then (intLoc - 1, (intLoc - 1) - intGlob, some Ident1)
      else (intLoc, intParInOut, enumLoc)
    match enumLoc with
    | none => Proc2Res.unboundLocal
    | some e =>
      if e = Ident1 then Proc2Res.ok intParInOut
      else Proc2Go char1Glob intGlob f intLoc intParInOut enumLoc

/-- `Proc2(IntParIO)`: `IntLoc = IntParIO + 10` then the `while 1` loop.
Every pass of that loop either breaks or faults (theorem
`Proc2_single_pass`), so fuel 1 is exact.  `none` models the exception. -/
def Proc2 (char1Glob : Char) (intGlob : Int) (intParInOut : Int) : Option Int :=
  match Proc2Go char1Glob intGlob 1 (intParInOut + 10) intParInOut none with
  | Proc2Res.ok v => some v
  | _ => none

/-- `Proc4`: reads `Char1Glob` and `BoolGlob` into a dead local, sets
`Char2Glob = 'B'`. -/
def Proc4 (s : GState) : GState :=
  let boolLoc := s.char1Glob = 'A'
  let _boolLoc := boolLoc ∨ s.boolGlob
  { s with char2Glob := 'B' }

/-- `Proc5`: `Char1Glob = 'A'; BoolGlob = FALSE`. -/
def Proc5 (s : GState) : GState :=
  { s with char1Glob := 'A', boolGlob := false }

/-- `Proc8`: mutates the 1-D array at `IntLoc`, `IntLoc+1`, `IntLoc+30`
and the 2-D array at row `IntLoc` (columns `IntLoc-1 .. IntLoc+1`) and row
`IntLoc+20`, with `IntLoc = IntParI1 + 5`; finally `IntGlob = 5`.  Returns
the updated arrays and the new `IntGlob`; `none` is an `IndexError`. -/
def Proc8 (array1Par : List Int) (array2Par : List (List Int))
    (intParI1 intParI2 : Int) : Option (List Int × List (List Int) × Int) := do
  let intLoc := intParI1 + 5
  let a1 ← pySet array1Par intLoc intParI2
  let v ← pyGet a1 intLoc
  let a1 ← pySet a1 (intLoc + 1) v
  let a1 ← pySet a1 (intLoc + 30) intLoc
  let a2 ← (pyRange intLoc (intLoc + 2) 1).foldlM
    (fun acc intIndex => pySet2 acc intLoc intIndex intLoc) array2Par
  let w ← pyGet2 a2 intLoc (intLoc - 1)
  let a2 ← pySet2 a2 intLoc (intLoc - 1) (w + 1)
  let u ← pyGet a1 intLoc
  let a2 ← pySet2 a2 (intLoc + 20) intLoc u
  some (a1, a2, 5)

/-- `Proc3(PtrParOut)`: rebinds the out-parameter to `PtrGlb.PtrComp` when
`PtrGlb` is not `None` (else sets `IntGlob = 100`), then writes
`PtrGlb.IntComp = Proc7(10, IntGlob)` — an `AttributeError` (`none`) when
`PtrGlb` is `None`.  The globals it touches (`IntGlob`, the record arena,
`PtrGlb`) are passed explicitly; it returns the new `IntGlob` and arena
together with the out-pointer. -/
def Proc3 (intGlob : Int) (heap : List Rec) (ptrGlb : Option Nat)
    (ptrParOut : Option Nat) : Option (Int × List Rec × Option Nat) :=
  let step :=
    match ptrGlb with
    | some g => obind (hGet heap g) fun rg => some (intGlob, rg.ptrComp)
    | none => some (100, ptrParOut)
  obind step fun igOut =>
  obind ptrGlb fun g =>
  obind (hMod heap g fun r => { r with intComp := Proc7 10 igOut.1 }) fun heap2 =>
  some (igOut.1, heap2, igOut.2)

/-- `Proc1(PtrParIn)`: copies `PtrGlb` into a fresh record `NextRecord`,
relinks and mutates through the aliases exactly as the source does, and
returns the (possibly rebound) `PtrParIn` pointer.  Like `Proc3` it is
given the globals it touches (`IntGlob`, the arena, `PtrGlb`) explicitly
and returns the updated `IntGlob` and arena with the result pointer. -/
def Proc1 (intGlob : Int) (heap0 : List Rec) (ptrGlb : Option Nat)
    (ptrParInOpt : Option Nat) : Option (Int × List Rec × Nat) :=
  -- PtrParIn.PtrComp = NextRecord = self.PtrGlb.copy()
  obind ptrGlb fun glb =>
  obind (hGet heap0 glb) fun rglb =>
  let nextRecord := heap0.length
  let heap := heap0 ++ [rglb]
  obind ptrParInOpt fun p =>
  obind (hMod heap p fun r => { r with ptrComp := some nextRecord }) fun heap =>
  -- PtrParIn.IntComp = 5
  obind (hMod heap p fun r => { r with intComp := 5 }) fun heap =>
  -- NextRecord.IntComp = PtrParIn.IntComp
  obind (hGet heap p) fun rp =>
  obind (hMod heap nextRecord fun r => { r with intComp := rp.intComp }) fun heap =>
  -- NextRecord.PtrComp = PtrParIn.PtrComp
  obind (hGet heap p) fun rp2 =>
  obind (hMod heap nextRecord fun r => { r with ptrComp := rp2.ptrComp }) fun heap =>
  -- NextRecord.PtrComp = self.Proc3(NextRecord.PtrComp)
  obind (hGet heap nextRecord) fun rn =>
  obind (Proc3 intGlob heap ptrGlb rn.ptrComp) fun igOut =>
  let intGlob := igOut.1
  obind (hMod igOut.2.1 nextRecord fun r => { r with ptrComp := igOut.2.2 }) fun heap =>
  -- if NextRecord.Discr == Ident1: ... else: PtrParIn = NextRecord.copy()
  obind (hGet heap nextRecord) fun rn2 =>
  obind
    (if rn2.discr = Ident1 then
      obind (hMod heap nextRecord fun r => { r with intComp := 6 }) fun heap =>
      obind (hGet heap p) fun rp3 =>
      obind (hMod heap nextRecord fun r =>
        { r with enumComp := Proc6 intGlob rp3.enumComp }) fun heap =>
      obind ptrGlb fun glb2 =>
      obind (hGet heap glb2) fun rg2 =>
      obind (hMod heap nextRecord fun r => { r with ptrComp := rg2.ptrComp }) fun heap =>
      obind (hGet heap nextRecord) fun rn3 =>
      obind (hMod heap nextRecord fun r => { r with intComp := Proc7 rn3.intComp 10 })
        fun heap =>
      some (heap, p)
    else
      obind (hGet heap nextRecord) fun rn3 =>
      some (heap ++ [rn3], heap.length)) fun hp =>
  -- NextRecord.PtrComp = None
  obind (hMod hp.1 nextRecord fun r => { r with ptrComp := none }) fun heap =>
  some (intGlob, heap, hp.2)

/-- The `while IntLoc1 < IntLoc2` loop of the chunk body, one fuel step
per pass; `(IntLoc2 - IntLoc1).toNat` is its exact pass count since each
pass increments `IntLoc1` by one and leaves `IntLoc2` unchanged.
`IntLoc3` starts unassigned (`none`). -/
def whileGo : Nat → Int → Int → Option Int → Int × Option Int
  | 0, intLoc1, _, intLoc3 => (intLoc1, intLoc3)
  | f + 1, intLoc1, intLoc2, intLoc3 =>
    if intLoc1 < intLoc2 then
      let _intLoc3 := 5 * intLoc1 - intLoc2
      whileGo f (intLoc1 + 1) intLoc2 (some (Proc7 intLoc1 intLoc2))
    else (intLoc1, intLoc3)

/-- The bounded `while` loop, run with its exact fuel. -/
def whileLoopRun (intLoc1 intLoc2 : Int) (intLoc3 : Option Int) : Int × Option Int :=
  whileGo (intLoc2 - intLoc1).toNat intLoc1 intLoc2 intLoc3

/-- One pass of the `while CharIndex <= Char2Glob` loop; `CharIndex` is
carried as its ordinal (`chr`/`ord` arithmetic), and only `EnumLoc`
changes. -/
def charGo (intGlob : Int) (char2Glob : Char) : Nat → Nat → Nat → Nat
  | 0, _, enumLoc => enumLoc
  | f + 1, charIndex, enumLoc =>
    if charIndex ≤ char2Glob.toNat then
      let enumLoc :=
        if enumLoc = Func1 (Char.ofNat charIndex) 'C' then Proc6 intGlob Ident1
        else enumLoc
      charGo intGlob char2Glob f (charIndex + 1) enumLoc
    else enumLoc

/-- The character loop starting at `CharIndex = 'A'` (ordinal 65), with
its exact iteration count as fuel. -/
def charLoopRun (intGlob : Int) (char2Glob : Char) (enumLoc : Nat) : Nat :=
  charGo intGlob char2Glob (char2Glob.toNat + 1 - 65) 65 enumLoc

/-- The chunk body of the timed loop (`main.py` lines 231-256) up to but
not including the final `Proc2` call: the full procedure chain `Proc5`,
`Proc4`, `Func2`, the bounded `while` loop, `Proc8`, `Proc1` and the
character loop, plus the local integer arithmetic.  Returns the updated
state and the `IntLoc1` value (which `Proc2` receives). -/
def oneIterationPre (s : GState) : Option (GState × Int) := do
  let s := Proc5 s
  let s := Proc4 s
  let intLoc1 : Int := 2
  let intLoc2 : Int := 3
  let enumLoc := Ident2
  let f2 ← Func2 string1Loc string2Loc
  -- self.BoolGlob = not self.Func2(...): `not` of the int 1/0
  let s := { s with boolGlob := f2 = 0 }
  let (intLoc1, intLoc3Opt) := whileLoopRun intLoc1 intLoc2 none
  let intLoc3 ← intLoc3Opt
  let (a1, a2, ig) ← Proc8 s.array1Glob s.array2Glob intLoc1 intLoc3
  let s := { s with array1Glob := a1, array2Glob := a2, intGlob := ig }
  -- self.PtrGlb = self.Proc1(self.PtrGlb)
  let (ig2, heap2, p) ← Proc1 s.intGlob s.heap s.ptrGlb s.ptrGlb
  let s := { s with intGlob := ig2, heap := heap2, ptrGlb := some p }
  let _enumLoc := charLoopRun s.intGlob s.char2Glob enumLoc
  let intLoc3 := intLoc2 * intLoc1
  let intLoc2 := Int.fdiv intLoc3 intLoc1
  let _intLoc2 := 7 * (intLoc3 - intLoc2) - intLoc1
  some (s, intLoc1)

/-- One full workload-kernel pass: the chunk body including the final
`IntLoc1 = self.Proc2(IntLoc1)` (whose value is then dead). -/
def oneIteration (s : GState) : Option GState := do
  let (s, intLoc1) ← oneIterationPre s
  let _ ← Proc2 s.char1Glob s.intGlob intLoc1
  some s

/-! ## The benchmark driver (`run_benchmark`, `main.py` lines 184-270) -/

/-- Warm-up chunk size: `min(1000, max(1, loops // 100))`. -/
def warmupChunkSize (loops : Int) : Int :=
  min 1000 (max 1 (Int.fdiv loops 100))

/-- Timed-loop chunk size: `max(1, loops // 100)`. -/
def chunkSize (loops : Int) : Int :=
  max 1 (Int.fdiv loops 100)

/-- `setup_globals`: unconditionally resets every global scalar, both
arrays, and both `Record` pointers to fixed initial values; the reachable
record arena becomes empty (the `cleanup` calls only break reference
cycles of the discarded records).  The result is independent of the
previous state. -/
def setup_globals (_s : GState) : GState :=
  { intGlob := 0
    boolGlob := false
    char1Glob := Char.ofNat 0
    char2Glob := Char.ofNat 0
    array1Glob := List.replicate 51 0
    array2Glob := List.replicate 51 (List.replicate 51 0)
    ptrGlb := none
    ptrGlbNext := none
    heap := [] }

/-- Lines 204-210: `PtrGlbNext = Record(); PtrGlb = Record()` followed by
the five field assignments on `PtrGlb`. -/
def initRecords (s : GState) : GState :=
  let nxt := s.heap.length
  let heap := s.heap ++ [defaultRecord]
  let glb := heap.length
  let heap := heap ++ [defaultRecord]
  let heap := heap.set glb
    { ptrComp := some nxt
      discr := Ident1
      enumComp := Ident3
      intComp := 40
      stringComp := some "DHRYSTONE PROGRAM, SOME STRING".toList }
  { s with heap := heap, ptrGlb := some glb, ptrGlbNext := some nxt }

/-- The warm-up loop: one `should_stop` check per chunk start (the chunk
body itself is `pass`).  Returns whether a check observed the flag and the
next check index. -/
def warmupGo (sched : Nat → Bool) : List Int → Nat → Bool × Nat
  | [], k => (false, k)
  | _ :: rest, k => if sched k then (true, k + 1) else warmupGo sched rest (k + 1)

/-- The progress events emitted by the inner `for j in range(i, end_chunk)`
loop of one chunk: the callback fires only at `j == end_chunk - 1`, with
arguments `(j + 1, loops)`. -/
def chunkTrace (i endChunk loops : Int) : List (Int × Int) :=
  (pyRange i endChunk 1).filterMap fun j =>
    if j = endChunk - 1 then some (j + 1, loops) else none

/-- How the timed loop ended: normally, by observing `should_stop`, or by
an exception from the workload kernel. -/
inductive Phase where
  | ok (s : GState)
  | cancelled (s : GState)
  | fault (s : GState)

/-- The timed loop over the list of chunk start indices: at each chunk it
checks `should_stop`, runs the inner progress loop, then executes one full
workload-kernel pass.  Returns the final phase, the emitted progress
events, and the number of kernel invocations. -/
def timedGo (loops csize : Int) (sched : Nat → Bool) :
    List Int → Nat → GState → Phase × List (Int × Int) × Nat
  | [], _, s => (Phase.ok s, [], 0)
  | i :: rest, k, s =>
    if sched k then (Phase.cancelled s, [], 0)
    else
      let endChunk := min (i + csize) loops
      let tr := chunkTrace i endChunk loops
      match oneIteration s with
      | none => (Phase.fault s, tr, 1)
      | some s2 =>
        let (ph, tr2, calls) := timedGo loops csize sched rest (k + 1) s2
        (ph, tr ++ tr2, calls + 1)

/-- The observable outcome of one `run_benchmark` call:
`result = some (benchtime, stones)` models the normal return,
`result = none` the `return None, None` cancellation path, `fault` an
exception propagating out; `progress` is the sequence of
`progress_callback(current, total)` invocations (when a callback is
supplied), and `state` the benchmark object state afterwards. -/
structure RunOut where
  result : Option (ℚ × ℚ)
  fault : Bool
  progress : List (Int × Int)
  kernelCalls : Nat
  state : GState

/-- `run_benchmark(loops, progress_callback)`.  `sched k` is the value of
`self.should_stop` observed at the k-th chunk-boundary check; `clock k` is
the k-th `clock()` reading (0: before warm-up, 1: after warm-up, 2: before
the timed loop, 3: after it).  The `finally` block always appends the
final `(loops, loops)` progress event. -/
def run_benchmark (loops : Int) (sched : Nat → Bool) (clock : Nat → ℚ)
    (s0 : GState) : RunOut :=
  let s := setup_globals s0
  match warmupGo sched (pyRange 0 loops (warmupChunkSize loops)) 0 with
  | (true, _) =>
    { result := none, fault := false, progress := [(loops, loops)],
      kernelCalls := 0, state := s }
  | (false, k) =>
    let nulltime := clock 1 - clock 0
    let s := initRecords s
    -- self.Array2Glob[8][7] = 10
    match pySet2 s.array2Glob 8 7 10 with
    | none =>
      { result := none, fault := true, progress := [(loops, loops)],
        kernelCalls := 0, state := s }
    | some a2 =>
      let s := { s with array2Glob := a2 }
      match timedGo loops (chunkSize loops) sched (pyRange 0 loops (chunkSize loops)) k s with
      | (Phase.cancelled s1, tr, calls) =>
        { result := none, fault := false, progress := tr ++ [(loops, loops)],
          kernelCalls := calls, state := s1 }
      | (Phase.fault s1, tr, calls) =>
        { result := none, fault := true, progress := tr ++ [(loops, loops)],
          kernelCalls := calls, state := s1 }
      | (Phase.ok s1, tr, calls) =>
        let benchtime := clock 3 - clock 2 - nulltime
        let stones := if benchtime ≤ 0 then (0 : ℚ) else (loops : ℚ) / benchtime
        { result := some (benchtime, stones), fault := false,
          progress := tr ++ [(loops, loops)], kernelCalls := calls, state := s1 }

/-- `BenchmarkWorker.run` (lines 73-79): the `finished` signal is emitted
with the run result exactly when the worker is still running and both
returned components are non-`None`; otherwise no `completed` event exists
for the run. -/
def workerFinished (isRunningFlag : Bool) (out : RunOut) : Option (ℚ × ℚ) :=
  if isRunningFlag then out.result else none

/-- A `should_stop` schedule that is never set. -/
def schedNever : Nat → Bool := fun _ => false

/-- A `should_stop` schedule that is set from the start. -/
def schedAlways : Nat → Bool := fun _ => true

/-- A concrete strictly increasing clock for witnesses. -/
def clockId : Nat → ℚ := fun k => (k : ℚ)

/-- A concrete initial object state for witnesses (the fields are
immediately overwritten by `setup_globals`). -/
def g0 : GState := setup_globals
  { intGlob := 7, boolGlob := true, char1Glob := 'x', char2Glob := 'y',
    array1Glob := [], array2Glob := [], ptrGlb := some 0, ptrGlbNext := none,
    heap := [defaultRecord] }

/-! ## Range and chunk lemmas -/

theorem obind_eq_some {α β : Type} {x : Option α} {f : α → Option β} {b : β} :
    obind x f = some b ↔ ∃ a, x = some a ∧ f a = some b := by
  simp [obind, Option.bind_eq_some]

theorem rangeLen_of_nonpos {start stop step : Int} (h : stop ≤ start) (hs : 0 < step) :
    rangeLen start stop step = 0 := by
  have hX : stop - start + step - 1 < step := by omega
  unfold rangeLen
  rw [Int.fdiv_eq_ediv _ (le_of_lt hs)]
  rcases le_or_lt 0 (stop - start + step - 1) with hx | hx
  · rw [Int.ediv_eq_zero_of_lt hx hX]
    rfl
  · have := Int.ediv_neg' hx hs
    omega

theorem pyRange_of_nonpos {start stop step : Int} (h : stop ≤ start) (hs : 0 < step) :
    pyRange start stop step = [] := by
  unfold pyRange
  rw [rangeLen_of_nonpos h hs]
  rfl

theorem rangeLen_step {a b c : Int} (hc : 0 < c) (hab : a < b) :
    rangeLen a b c = rangeLen (a + c) b c + 1 := by
  unfold rangeLen
  rw [Int.fdiv_eq_ediv _ (le_of_lt hc), Int.fdiv_eq_ediv _ (le_of_lt hc)]
  have h1 : b - (a + c) + c - 1 = (b - a + c - 1) + (-1) * c := by ring
  rw [h1, Int.add_mul_ediv_right _ _ (by omega)]
  have h2 : (1 : Int) ≤ (b - a + c - 1) / c := by
    rw [Int.le_ediv_iff_mul_le hc]
    omega
  omega

theorem pyRange_cons {a b c : Int} (hc : 0 < c) (hab : a < b) :
    pyRange a b c = a :: pyRange (a + c) b c := by
  unfold pyRange
  rw [rangeLen_step hc hab, List.range_succ_eq_map, List.map_cons, List.map_map]
  congr 1
  · simp
  · apply List.map_congr_left
    intro k _
    simp only [Function.comp_apply, Nat.succ_eq_add_one]
    push_cast
    ring

theorem rangeLen_one (a b : Int) : rangeLen a b 1 = (b - a).toNat := by
  unfold rangeLen
  have h : a + 1 - 1 = a := by ring
  rw [show b - a + 1 - 1 = b - a by ring, Int.fdiv_one]

theorem pyRange_one (a b : Int) :
    pyRange a b 1 = (List.range (b - a).toNat).map fun (k : Nat) => a + (k : Int) := by
  unfold pyRange
  rw [rangeLen_one]
  apply List.map_congr_left
  intro k _
  ring

theorem mem_pyRange_one {a b j : Int} : j ∈ pyRange a b 1 ↔ a ≤ j ∧ j < b := by
  rw [pyRange_one]
  simp only [List.mem_map, List.mem_range]
  constructor
  · rintro ⟨k, hk, rfl⟩
    omega
  · rintro ⟨h1, h2⟩
    exact ⟨(j - a).toNat, by omega, by omega⟩

theorem pyRange_split {a m b : Int} (h1 : a ≤ m) (h2 : m ≤ b) :
    pyRange a b 1 = pyRange a m 1 ++ pyRange m b 1 := by
  rw [pyRange_one, pyRange_one, pyRange_one,
    show (b - a).toNat = (m - a).toNat + (b - m).toNat by omega,
    List.range_add, List.map_append, List.map_map]
  congr 1
  apply List.map_congr_left
  intro k _
  simp only [Function.comp_apply]
  omega

theorem pyRange_singleton (a : Int) : pyRange a (a + 1) 1 = [a] := by
  rw [pyRange_one]
  have h1 : List.range 1 = [0] := rfl
  simp [h1]

theorem pyRange_chain {a b c : Int} (hc : 0 < c) :
    List.Chain' (· < ·) (pyRange a b c) := by
  rw [List.chain'_iff_get]
  intro i hi
  unfold pyRange at *
  simp only [List.get_eq_getElem, List.getElem_map, List.getElem_range]
  have : c * (i : Int) < c * ((i : Int) + 1) :=
    mul_lt_mul_of_pos_left (by omega) hc
  push_cast
  omega

theorem chunkTrace_eq {i e loops : Int} (h : i < e) :
    chunkTrace i e loops = [(e, loops)] := by
  unfold chunkTrace
  have hs : pyRange (e - 1) e 1 = [e - 1] := by
    have h2 := pyRange_singleton (e - 1)
    rwa [show e - 1 + 1 = e by ring] at h2
  rw [pyRange_split (show i ≤ e - 1 by omega) (show e - 1 ≤ e by omega), hs,
    List.filterMap_append]
  have h1 : List.filterMap
      (fun j => if j = e - 1 then some (j + 1, loops) else none)
      (pyRange i (e - 1) 1) = [] := by
    rw [List.filterMap_eq_nil_iff]
    intro j hj
    rw [mem_pyRange_one] at hj
    rw [if_neg (by omega)]
  have h2 : (fun j => if j = e - 1 then some (j + 1, loops) else none) (e - 1)
      = some (e - 1 + 1, loops) := by simp
  rw [h1]
  simp

/-! ## Driver loop lemmas -/

theorem warmupGo_never : ∀ (l : List Int) (k : Nat),
    warmupGo schedNever l k = (false, k + l.length) := by
  intro l
  induction l with
  | nil => intro k; simp [warmupGo]
  | cons i rest ih =>
    intro k
    simp [warmupGo, schedNever, ih, Nat.add_comm, Nat.add_assoc, Nat.add_left_comm]

theorem timedGo_trace {loops csize : Int} (sched : Nat → Bool) (hc : 0 < csize) :
    ∀ (starts : List Int) (k : Nat) (s : GState), (∀ i ∈ starts, i < loops) →
    ∃ m, m ≤ starts.length ∧
      (timedGo loops csize sched starts k s).2.1
        = (starts.take m).map fun i => (min (i + csize) loops, loops) := by
  intro starts
  induction starts with
  | nil =>
    intro k s _
    exact ⟨0, by simp, by simp [timedGo]⟩
  | cons i rest ih =>
    intro k s hmem
    by_cases hk : sched k
    · exact ⟨0, by simp, by simp [timedGo, hk]⟩
    · have hiLt : i < min (i + csize) loops :=
        lt_min (by omega) (hmem i (by simp))
      have htr := @chunkTrace_eq i (min (i + csize) loops) loops hiLt
      rcases hone : oneIteration s with _ | s2
      · refine ⟨1, by simp, ?_⟩
        simp [timedGo, hk, hone, htr]
      · obtain ⟨m, hm, hms⟩ := ih (k + 1) s2 fun j hj => hmem j (by simp [hj])
        refine ⟨m + 1, by simpa using hm, ?_⟩
        simp only [timedGo, hk, if_false, hone, htr, List.take_succ_cons, List.map_cons]
        rcases hrest : timedGo loops csize sched rest (k + 1) s2 with ⟨ph, tr2, calls⟩
        rw [hrest] at hms
        simp at hms
        simp [hms]

theorem timedGo_ok_calls {loops csize : Int} (sched : Nat → Bool) :
    ∀ (starts : List Int) (k : Nat) (s s1 : GState) (tr : List (Int × Int)) (calls : Nat),
    timedGo loops csize sched starts k s = (Phase.ok s1, tr, calls) →
    calls = starts.length := by
  intro starts
  induction starts with
  | nil =>
    intro k s s1 tr calls h
    simp only [timedGo, Prod.mk.injEq, Phase.ok.injEq] at h
    simp [← h.2.2]
  | cons i rest ih =>
    intro k s s1 tr calls h
    by_cases hk : sched k
    · simp [timedGo, hk] at h
    · simp only [timedGo] at h
      rw [if_neg hk] at h
      rcases hone : oneIteration s with _ | s2 <;> simp only [hone] at h
      · simp at h
      · rcases hrest : timedGo loops csize sched rest (k + 1) s2 with ⟨ph, tr2, calls2⟩
        simp only [hrest, Prod.mk.injEq] at h
        obtain ⟨hph, -, hcalls⟩ := h
        cases ph with
        | ok s2x =>
          have := ih (k + 1) s2 s2x tr2 calls2 (by rw [hrest])
          simp [← hcalls, this]
        | cancelled s2x => simp at hph
        | fault s2x => simp at hph

/-! ## Claim theorems about the driver -/

/-- Claim C1: for every run of `run_benchmark` that completes normally,
the returned elapsed time is the clock reading after the timed loop minus
the reading before it minus the measured warm-up overhead, and the
returned throughput is `loops / elapsed` when `elapsed > 0` and `0` when
`elapsed ≤ 0`. -/
theorem run_benchmark_elapsed_throughput (loops : Int) (sched : Nat → Bool)
    (clock : Nat → ℚ) (s0 : GState) (bt st : ℚ)
    (h : (run_benchmark loops sched clock s0).result = some (bt, st)) :
    bt = (clock 3 - clock 2) - (clock 1 - clock 0) ∧
    (0 < bt → st = (loops : ℚ) / bt) ∧
    (bt ≤ 0 → st = 0) := by
  simp only [run_benchmark] at h
  split at h
  · simp at h
  · split at h
    · simp at h
    · split at h
      · simp at h
      · simp at h
      · simp only [Option.some.injEq, Prod.mk.injEq] at h
        obtain ⟨hbt, hst⟩ := h
        subst hbt
        subst hst
        refine ⟨rfl, ?_, ?_⟩
        · intro h0
          rw [if_neg (not_le.mpr h0)]
        · intro h0
          rw [if_pos h0]

/-- Claim C5: whatever the outcome of the run (normal completion,
cancellation through the stop flag, or a fault), the last progress event
delivered is `(loops, loops)`, emitted by the `finally` block. -/
theorem run_benchmark_final_progress (loops : Int) (sched : Nat → Bool)
    (clock : Nat → ℚ) (s0 : GState) :
    (run_benchmark loops sched clock s0).progress.getLast? = some (loops, loops) := by
  simp only [run_benchmark]
  split
  · rfl
  · split
    · rfl
    · split <;> simp [List.getLast?_concat]

/-- Claim C8: the complete observable behaviour of a run apart from the
wall-clock numbers — the final object state, the progress events, the
kernel invocation count, whether a result was produced, and whether a
fault escaped — is independent of the state left behind by any previous
run, because `run_benchmark` starts with `setup_globals`. -/
theorem run_benchmark_no_residue (loops : Int) (sched : Nat → Bool)
    (clock1 clock2 : Nat → ℚ) (s1 s2 : GState) :
    (run_benchmark loops sched clock1 s1).state
      = (run_benchmark loops sched clock2 s2).state ∧
    (run_benchmark loops sched clock1 s1).progress
      = (run_benchmark loops sched clock2 s2).progress ∧
    (run_benchmark loops sched clock1 s1).kernelCalls
      = (run_benchmark loops sched clock2 s2).kernelCalls ∧
    ((run_benchmark loops sched clock1 s1).result = none
      ↔ (run_benchmark loops sched clock2 s2).result = none) ∧
    (run_benchmark loops sched clock1 s1).fault
      = (run_benchmark loops sched clock2 s2).fault := by
  have hsg : setup_globals s1 = setup_globals s2 := rfl
  simp only [run_benchmark, hsg]
  split
  · simp
  · split
    · simp
    · split <;> simp

/-- Claim C6: if the stop flag is already observed at the very first
chunk-boundary check, the run is cancelled: `run_benchmark` returns
`(None, None)`, no fault escapes, the workload kernel never runs, and the
worker emits no `finished` (completed) event. -/
theorem run_benchmark_early_stop (loops : Int) (sched : Nat → Bool)
    (clock : Nat → ℚ) (s0 : GState) (h1 : 1 ≤ loops) (h2 : sched 0 = true) :
    (run_benchmark loops sched clock s0).result = none ∧
    (run_benchmark loops sched clock s0).fault = false ∧
    (run_benchmark loops sched clock s0).kernelCalls = 0 ∧
    workerFinished true (run_benchmark loops sched clock s0) = none := by
  have hc : 0 < warmupChunkSize loops := by
    unfold warmupChunkSize
    omega
  have hw : warmupGo sched (pyRange 0 loops (warmupChunkSize loops)) 0 = (true, 1) := by
    rw [pyRange_cons hc (by omega : (0 : Int) < loops)]
    simp [warmupGo, h2]
  simp [run_benchmark, hw, workerFinished]

theorem mem_pyRange_lt {a b c j : Int} (hc : 0 < c) (hj : j ∈ pyRange a b c) :
    a ≤ j ∧ j < b := by
  unfold pyRange at hj
  simp only [List.mem_map, List.mem_range] at hj
  obtain ⟨k, hk, rfl⟩ := hj
  have hck : 0 ≤ c * (k : Int) := by positivity
  refine ⟨by omega, ?_⟩
  unfold rangeLen at hk
  rw [Int.fdiv_eq_ediv _ (le_of_lt hc)] at hk
  have h1 : ((k : Int) + 1) ≤ (b - a + c - 1) / c := by omega
  rw [Int.le_ediv_iff_mul_le hc] at h1
  have h2 : ((k : Int) + 1) * c = c * (k : Int) + c := by ring
  omega

theorem chunks_flatten {c : Int} (hc : 0 < c) :
    ∀ (n : Nat) (a b : Int), (b - a).toNat ≤ n →
    (pyRange a b c).flatMap (fun i => pyRange i (min (i + c) b) 1) = pyRange a b 1 := by
  intro n
  induction n with
  | zero =>
    intro a b hab
    rw [pyRange_of_nonpos (by omega) hc, pyRange_of_nonpos (by omega) (by norm_num)]
    rfl
  | succ n ih =>
    intro a b hab
    rcases le_or_lt b a with hba | hab2
    · rw [pyRange_of_nonpos hba hc, pyRange_of_nonpos hba (by norm_num)]
      rfl
    · rw [pyRange_cons hc hab2, List.flatMap_cons,
        ih (a + c) b (by omega)]
      rcases le_or_lt (a + c) b with hcb | hcb
      · rw [min_eq_left hcb, ← pyRange_split (by omega : a ≤ a + c) hcb]
      · rw [min_eq_right (le_of_lt hcb),
          pyRange_of_nonpos (le_of_lt hcb) (by norm_num : (0 : Int) < 1),
          List.append_nil]

/-- Claim C3 (amended): the `current` values delivered to the progress
callback are monotonically non-decreasing (not strictly increasing: the
`finally` block repeats the final value) and the final delivered value
equals the total. -/
theorem run_benchmark_progress_monotone (loops : Int) (sched : Nat → Bool)
    (clock : Nat → ℚ) (s0 : GState) :
    List.Chain' (· ≤ ·) ((run_benchmark loops sched clock s0).progress.map Prod.fst) ∧
    (run_benchmark loops sched clock s0).progress.getLast? = some (loops, loops) := by
  rcases hw : warmupGo sched (pyRange 0 loops (warmupChunkSize loops)) 0 with ⟨b, k⟩
  simp only [run_benchmark, hw]
  cases b with
  | true => constructor <;> simp
  | false =>
    rcases hset : pySet2 (initRecords (setup_globals s0)).array2Glob 8 7 10 with _ | a2 <;>
      simp only [hset]
    · constructor <;> simp
    · have hcpos : 0 < chunkSize loops := by
        unfold chunkSize
        omega
      have hmem : ∀ i ∈ pyRange 0 loops (chunkSize loops), i < loops :=
        fun i hi => (mem_pyRange_lt hcpos hi).2
      rcases ht : timedGo loops (chunkSize loops) sched (pyRange 0 loops (chunkSize loops)) k
          { initRecords (setup_globals s0) with array2Glob := a2 } with ⟨ph, tr, calls⟩
      obtain ⟨m, hmle, htr⟩ := timedGo_trace sched hcpos
        (pyRange 0 loops (chunkSize loops)) k
        { initRecords (setup_globals s0) with array2Glob := a2 } hmem
      rw [ht] at htr
      have htr2 : tr = List.map (fun i => ((i + chunkSize loops) ⊓ loops, loops))
          (List.take m (pyRange 0 loops (chunkSize loops))) := htr
      have hchain : List.Chain' (· ≤ ·) ((tr ++ [(loops, loops)]).map Prod.fst) := by
        rw [List.map_append, htr2, List.map_map, List.chain'_append]
        refine ⟨?_, List.chain'_singleton _, ?_⟩
        · rw [List.chain'_map]
          have hst : List.Chain' (· < ·)
              ((pyRange 0 loops (chunkSize loops)).take m) :=
            (pyRange_chain hcpos).sublist (List.take_sublist _ _)
          exact hst.imp fun x y hxy => by
            simp only [Function.comp_apply]
            exact min_le_min (by omega) le_rfl
        · intro x hx y hy
          simp only [List.map_cons, List.map_nil, List.head?_cons, Option.mem_def,
            Option.some.injEq] at hy
          subst hy
          simp only [Option.mem_def] at hx
          rw [List.getLast?_eq_getElem?] at hx
          have hxmem := List.getElem?_mem hx
          simp only [List.mem_map] at hxmem
          obtain ⟨i, -, rfl⟩ := hxmem
          exact min_le_right _ _
      cases ph <;> exact ⟨hchain, by simp [List.getLast?_concat]⟩

/-- Claim C4 (amended): on every normally completed run, the workload
kernel is invoked exactly once per chunk — `⌈loops / chunk_size⌉` times,
the number of starts of `range(0, loops, chunk_size)` — not once per
iteration. -/
theorem run_benchmark_kernel_once_per_chunk (loops : Int) (sched : Nat → Bool)
    (clock : Nat → ℚ) (s0 : GState)
    (h : (run_benchmark loops sched clock s0).result.isSome = true) :
    (run_benchmark loops sched clock s0).kernelCalls
      = (pyRange 0 loops (chunkSize loops)).length := by
  rcases hw : warmupGo sched (pyRange 0 loops (warmupChunkSize loops)) 0 with ⟨b, k⟩
  simp only [run_benchmark, hw] at h ⊢
  cases b with
  | true => simp at h
  | false =>
    rcases hset : pySet2 (initRecords (setup_globals s0)).array2Glob 8 7 10 with _ | a2 <;>
      simp only [hset] at h ⊢
    · simp at h
    · rcases ht : timedGo loops (chunkSize loops) sched (pyRange 0 loops (chunkSize loops)) k
          { initRecords (setup_globals s0) with array2Glob := a2 } with ⟨ph, tr, calls⟩
      simp only [ht] at h ⊢
      cases ph with
      | ok s1 => exact timedGo_ok_calls sched _ k _ s1 tr calls ht
      | cancelled s1 => simp at h
      | fault s1 => simp at h

/-- Claim C7: the warm-up pass chunks its `loops` iterations with chunk
size exactly `min(1000, max(1, loops // 100))` and the timed loop with
chunk size exactly `max(1, loops // 100)`: the chunked sub-ranges
partition `range(loops)` exactly, and the warm-up checks the cancellation
flag once per chunk boundary. -/
theorem run_benchmark_chunk_sizes (loops : Int) (h : 1 ≤ loops) :
    warmupChunkSize loops = min 1000 (max 1 (Int.fdiv loops 100)) ∧
    chunkSize loops = max 1 (Int.fdiv loops 100) ∧
    ((pyRange 0 loops (warmupChunkSize loops)).flatMap
        (fun i => pyRange i (min (i + warmupChunkSize loops) loops) 1)
      = pyRange 0 loops 1) ∧
    ((pyRange 0 loops (chunkSize loops)).flatMap
        (fun i => pyRange i (min (i + chunkSize loops) loops) 1)
      = pyRange 0 loops 1) ∧
    (warmupGo schedNever (pyRange 0 loops (warmupChunkSize loops)) 0).2
      = (pyRange 0 loops (warmupChunkSize loops)).length := by
  have hw : 0 < warmupChunkSize loops := by
    unfold warmupChunkSize
    omega
  have hcs : 0 < chunkSize loops := by
    unfold chunkSize
    omega
  refine ⟨rfl, rfl, ?_, ?_, ?_⟩
  · exact chunks_flatten hw (loops - 0).toNat 0 loops le_rfl
  · exact chunks_flatten hcs (loops - 0).toNat 0 loops le_rfl
  · rw [warmupGo_never]
    simp

/-! ## Array-access lemmas for the workload kernel -/

theorem pyIdx_of_nonneg_lt {n : Nat} {i : Int} (h0 : 0 ≤ i) (h : i < (n : Int)) :
    pyIdx n i = some i.toNat := by
  simp only [pyIdx]
  rw [if_neg (by omega : ¬ i < 0), if_pos ⟨h0, h⟩]

theorem pySet_eq {α : Type} {l : List α} {i : Int} (v : α) (h0 : 0 ≤ i)
    (h : i < (l.length : Int)) : pySet l i v = some (l.set i.toNat v) := by
  simp only [pySet, pyIdx_of_nonneg_lt h0 h]
  rfl

theorem pyGet_some {α : Type} {l : List α} {i : Int} (h0 : 0 ≤ i)
    (h : i < (l.length : Int)) : ∃ v, pyGet l i = some v := by
  have hlt : i.toNat < l.length := by omega
  exact ⟨l.get ⟨i.toNat, hlt⟩,
    by simp [pyGet, pyIdx_of_nonneg_lt h0 h, List.getElem?_eq_getElem hlt]⟩

theorem pyGet_mem {α : Type} {l : List α} {i : Int} {v : α}
    (h : pyGet l i = some v) : v ∈ l := by
  simp only [pyGet, Option.bind_eq_bind, Option.bind_eq_some] at h
  obtain ⟨j, -, hj⟩ := h
  exact List.getElem?_mem hj

/-- The shape invariant of `Array2Glob`: a 51×51 matrix. -/
def Shape (a2 : List (List Int)) : Prop :=
  a2.length = 51 ∧ ∀ r ∈ a2, r.length = 51

theorem pySet2_shape {a2 : List (List Int)} {i j v : Int} (hs : Shape a2)
    (hi0 : 0 ≤ i) (hi : i < 51) (hj0 : 0 ≤ j) (hj : j < 51) :
    ∃ a2x, pySet2 a2 i j v = some a2x ∧ Shape a2x := by
  obtain ⟨hlen, hrows⟩ := hs
  obtain ⟨row, hrow⟩ := @pyGet_some _ a2 i hi0 (by omega)
  have hrowlen : row.length = 51 := hrows row (pyGet_mem hrow)
  have hsr := @pySet_eq _ row j v hj0 (by omega)
  have hsl := @pySet_eq _ a2 i (row.set j.toNat v) hi0 (by omega)
  refine ⟨a2.set i.toNat (row.set j.toNat v), ?_, ?_, ?_⟩
  · simp [pySet2, hrow, hsr, hsl]
  · simp [hlen]
  · intro r hr
    rcases List.mem_or_eq_of_mem_set hr with h1 | h1
    · exact hrows r h1
    · subst h1
      simp [hrowlen]

theorem pyGet2_some {a2 : List (List Int)} {i j : Int} (hs : Shape a2)
    (hi0 : 0 ≤ i) (hi : i < 51) (hj0 : 0 ≤ j) (hj : j < 51) :
    ∃ w, pyGet2 a2 i j = some w := by
  obtain ⟨hlen, hrows⟩ := hs
  obtain ⟨row, hrow⟩ := @pyGet_some _ a2 i hi0 (by omega)
  have hrowlen : row.length = 51 := hrows row (pyGet_mem hrow)
  obtain ⟨w, hw⟩ := @pyGet_some _ row j hj0 (by omega)
  exact ⟨w, by simp [pyGet2, hrow, hw]⟩

/-- `Proc8` applied to `IntParI1 = 3` (the value the kernel always passes)
on a 51-element array and a 51×51 matrix: every index it computes is in
bounds, so it returns updated arrays of the same shape and the new
`IntGlob = 5` instead of raising `IndexError`. -/
theorem Proc8_ok {a1 : List Int} {a2 : List (List Int)} (i2 : Int)
    (h1 : a1.length = 51) (hs : Shape a2) :
    ∃ a1x a2x, Proc8 a1 a2 3 i2 = some (a1x, a2x, 5) ∧ a1x.length = 51 ∧ Shape a2x := by
  have e1 := @pySet_eq _ a1 8 i2 (by norm_num) (by omega)
  set b1 := a1.set (8 : Int).toNat i2 with hb1
  have hb1len : b1.length = 51 := by simp [hb1, h1]
  obtain ⟨v, e2⟩ := @pyGet_some _ b1 8 (by norm_num) (by omega)
  have e3 := @pySet_eq _ b1 9 v (by norm_num) (by omega)
  set b2 := b1.set (9 : Int).toNat v with hb2
  have hb2len : b2.length = 51 := by simp [hb2, hb1len]
  have e4 := @pySet_eq _ b2 38 8 (by norm_num) (by omega)
  set b3 := b2.set (38 : Int).toNat 8 with hb3
  have hb3len : b3.length = 51 := by simp [hb3, hb2len]
  obtain ⟨c1, e5, hc1⟩ := @pySet2_shape a2 8 8 8 hs (by norm_num) (by norm_num)
    (by norm_num) (by norm_num)
  obtain ⟨c2, e6, hc2⟩ := @pySet2_shape c1 8 9 8 hc1 (by norm_num) (by norm_num)
    (by norm_num) (by norm_num)
  obtain ⟨w, e7⟩ := @pyGet2_some c2 8 7 hc2 (by norm_num) (by norm_num)
    (by norm_num) (by norm_num)
  obtain ⟨c3, e8, hc3⟩ := @pySet2_shape c2 8 7 (w + 1) hc2 (by norm_num) (by norm_num)
    (by norm_num) (by norm_num)
  obtain ⟨u, e9⟩ := @pyGet_some _ b3 8 (by norm_num) (by omega)
  obtain ⟨c4, e10, hc4⟩ := @pySet2_shape c3 28 8 u hc3 (by norm_num) (by norm_num)
    (by norm_num) (by norm_num)
  have hrange : pyRange 8 10 1 = [8, 9] := by decide
  refine ⟨b3, c4, ?_, hb3len, hc4⟩
  simp [Proc8, List.foldlM, e1, e2, e3, e4, e5, e6, e7, e8, e9, e10, hrange,
    show (3 : Int) + 5 = 8 by norm_num, show (8 : Int) + 1 = 9 by norm_num,
    show (8 : Int) + 30 = 38 by norm_num, show (8 : Int) - 1 = 7 by norm_num,
    show (8 : Int) + 20 = 28 by norm_num, show (8 : Int) + 2 = 10 by norm_num]

/-- The bounded `while` loop of the chunk body always finishes with
`IntLoc1 = 3` and `IntLoc3` bound to `Proc7(2, 3) = 7`. -/
theorem whileLoopRun_result : whileLoopRun 2 3 none = (3, some 7) := rfl

/-- Claim C9: the kernel calls `Proc8` with `IntParI1` equal to the value
of `IntLoc1` after the bounded `while` loop, which is always `3`; with the
51-element array and 51×51 matrix every computed index (`IntLoc = 8` up to
`IntLoc + 30 = 38`, rows up to `IntLoc + 20 = 28`) is within `0..50`, so
the out-of-bounds (`IndexError`) branch of every access is unreachable. -/
theorem Proc8_always_inbounds (a1 : List Int) (a2 : List (List Int)) (i2 : Int)
    (h1 : a1.length = 51) (h2 : a2.length = 51) (h3 : ∀ r ∈ a2, r.length = 51) :
    (whileLoopRun 2 3 none).1 = 3 ∧ (Proc8 a1 a2 3 i2).isSome = true := by
  obtain ⟨a1x, a2x, heq, -⟩ := Proc8_ok i2 h1 ⟨h2, h3⟩
  exact ⟨rfl, by simp [heq]⟩

/-! ## `Proc2` and the `Char1Glob` precondition -/

theorem Proc2Go_A (g x : Int) (fuel : Nat) :
    Proc2Go 'A' g (fuel + 1) (x + 10) x none = Proc2Res.ok (x + 9 - g) := by
  simp only [Proc2Go, if_pos rfl, Ident1]
  norm_num
  ring_nf

theorem Proc2Go_notA (g x : Int) (fuel : Nat) {c : Char} (hc : c ≠ 'A') :
    Proc2Go c g (fuel + 1) (x + 10) x none = Proc2Res.unboundLocal := by
  simp only [Proc2Go, if_neg hc]

theorem Proc2_A (g x : Int) : Proc2 'A' g x = some (x + 9 - g) := by
  unfold Proc2
  rw [show (1 : Nat) = 0 + 1 from rfl, Proc2Go_A]

/-- Whenever the chunk body reaches its final `Proc2` call, the state it
reads `Char1Glob` from has `Char1Glob = 'A'`: `Proc5` sets it at the start
of the pass and no intervening procedure writes it. -/
theorem oneIterationPre_char1 {s s2 : GState} {i1 : Int}
    (h : oneIterationPre s = some (s2, i1)) : s2.char1Glob = 'A' := by
  have hwl : whileLoopRun 2 3 none = (3, some 7) := rfl
  simp only [oneIterationPre, hwl, Option.bind_eq_bind, Option.bind_eq_some,
    Option.some.injEq, Option.some_bind, Prod.mk.injEq] at h
  obtain ⟨f2, -, h⟩ := h
  obtain ⟨⟨a1, a2, ig⟩, -, h⟩ := h
  obtain ⟨⟨ig2, heap2, p⟩, -, h⟩ := h
  obtain ⟨hS, -⟩ := h
  simp [← hS, Proc4, Proc5]

/-- Claim C10: with `Char1Glob = 'A'` (which the kernel guarantees at the
call site, by `oneIterationPre_char1`), the `while 1` loop of `Proc2`
terminates after exactly one pass whatever fuel remains, returning
`(x + 9) - IntGlob`; without that precondition the first pass already
reads the unassigned local `EnumLoc` instead of looping on. -/
theorem Proc2_single_pass (g x : Int) (fuel : Nat) (c : Char) (s : GState) :
    (c = 'A' → Proc2Go c g (fuel + 1) (x + 10) x none = Proc2Res.ok (x + 9 - g) ∧
      Proc2 c g x = some (x + 9 - g)) ∧
    (c ≠ 'A' → Proc2Go c g (fuel + 1) (x + 10) x none = Proc2Res.unboundLocal) ∧
    (∀ s2 i1, oneIterationPre s = some (s2, i1) → s2.char1Glob = 'A') := by
  refine ⟨?_, ?_, ?_⟩
  · rintro rfl
    exact ⟨Proc2Go_A g x fuel, Proc2_A g x⟩
  · intro hc
    exact Proc2Go_notA g x fuel hc
  · intro s2 i1 h
    exact oneIterationPre_char1 h

/-! ## Iteration-count validation (claim C2) -/

/-- Counterexample to claim C2 as stated: `run_benchmark(0)` does not
fail with an `InvalidArgument` (or any) error — it completes normally
with a result, and the global Record pointers have been mutated. -/
theorem run_benchmark_zero_loops_no_error :
    (run_benchmark 0 schedNever clockId g0).fault = false ∧
    (run_benchmark 0 schedNever clockId g0).result.isSome = true ∧
    (run_benchmark 0 schedNever clockId g0).state.ptrGlb = some 1 := by
  decide

/-- Claim C2 (amended): `run_benchmark` performs no iteration-count
validation.  For every `loops < 1` it raises nothing: it still resets the
global state and allocates both Records (mutating `PtrGlb`), runs zero
warm-up and timed chunks, and returns a normal `(benchtime, stones)`
result. -/
theorem run_benchmark_no_validation (loops : Int) (sched : Nat → Bool)
    (clock : Nat → ℚ) (s0 : GState) (h : loops < 1) :
    (run_benchmark loops sched clock s0).fault = false ∧
    (run_benchmark loops sched clock s0).kernelCalls = 0 ∧
    (run_benchmark loops sched clock s0).state.ptrGlb = some 1 ∧
    ∃ bt st, (run_benchmark loops sched clock s0).result = some (bt, st) := by
  have hwchunk : 0 < warmupChunkSize loops := by
    unfold warmupChunkSize
    omega
  have hcchunk : 0 < chunkSize loops := by
    unfold chunkSize
    omega
  have hwr : pyRange 0 loops (warmupChunkSize loops) = [] :=
    pyRange_of_nonpos (by omega) hwchunk
  have hcr : pyRange 0 loops (chunkSize loops) = [] :=
    pyRange_of_nonpos (by omega) hcchunk
  have hshape : Shape (initRecords (setup_globals s0)).array2Glob := by
    refine ⟨by simp [initRecords, setup_globals], ?_⟩
    intro r hr
    simp only [initRecords, setup_globals] at hr
    rw [List.eq_of_mem_replicate hr]
    simp
  obtain ⟨a2, hset, -⟩ := @pySet2_shape (initRecords (setup_globals s0)).array2Glob 8 7 10
    hshape (by norm_num) (by norm_num) (by norm_num) (by norm_num)
  simp only [run_benchmark, hwr, warmupGo, hset, hcr, timedGo]
  simp [initRecords, setup_globals]

/-! ## Concrete counterexamples and witnesses -/

/-- Counterexample to claim C3 as stated: for a run of one iteration the
in-loop callback delivers `(1, 1)` and the `finally` block delivers
`(1, 1)` again, so the `current` sequence is not strictly increasing. -/
theorem run_benchmark_progress_not_strict :
    (run_benchmark 1 schedNever clockId g0).progress = [(1, 1), (1, 1)] ∧
    ¬ List.Chain' (· < ·)
      ((run_benchmark 1 schedNever clockId g0).progress.map Prod.fst) := by
  have h1 : (run_benchmark 1 schedNever clockId g0).progress = [(1, 1), (1, 1)] := by
    decide
  refine ⟨h1, ?_⟩
  rw [h1]
  simp [List.chain'_pair]

set_option maxRecDepth 400000 in
/-- Counterexample to claim C4 as stated: a 200-iteration run completes
normally but invokes the workload kernel only 100 times (once per chunk of
size 2), not 200 times. -/
theorem run_benchmark_kernel_not_per_iteration :
    (run_benchmark 200 schedNever clockId g0).result.isSome = true ∧
    (run_benchmark 200 schedNever clockId g0).kernelCalls = 100 ∧
    ¬ (run_benchmark 200 schedNever clockId g0).kernelCalls = 200 := by
  decide

/-- The elapsed time of the witness run, written exactly as
`run_benchmark` computes it. -/
def wbt : ℚ := clockId 3 - clockId 2 - (clockId 1 - clockId 0)

/-- The throughput of the witness run, written exactly as `run_benchmark`
computes it. -/
def wst : ℚ := if wbt ≤ 0 then 0 else ((0 : Int) : ℚ) / wbt

theorem run_benchmark_elapsed_throughput_witness :
    (run_benchmark 0 schedNever clockId g0).result = some (wbt, wst) ∧
    (wbt = (clockId 3 - clockId 2) - (clockId 1 - clockId 0) ∧
      (0 < wbt → wst = ((0 : Int) : ℚ) / wbt) ∧
      (wbt ≤ 0 → wst = 0)) := by
  have h : (run_benchmark 0 schedNever clockId g0).result = some (wbt, wst) := rfl
  exact ⟨h, run_benchmark_elapsed_throughput 0 schedNever clockId g0 wbt wst h⟩

theorem run_benchmark_no_validation_witness :
    (0 : Int) < 1 ∧
    ((run_benchmark 0 schedNever clockId g0).fault = false ∧
      (run_benchmark 0 schedNever clockId g0).kernelCalls = 0 ∧
      (run_benchmark 0 schedNever clockId g0).state.ptrGlb = some 1 ∧
      ∃ bt st, (run_benchmark 0 schedNever clockId g0).result = some (bt, st)) :=
  ⟨by norm_num, run_benchmark_no_validation 0 schedNever clockId g0 (by norm_num)⟩

theorem run_benchmark_kernel_once_per_chunk_witness :
    (run_benchmark 1 schedNever clockId g0).result.isSome = true ∧
    (run_benchmark 1 schedNever clockId g0).kernelCalls
      = (pyRange 0 1 (chunkSize 1)).length := by
  have h : (run_benchmark 1 schedNever clockId g0).result.isSome = true := by decide
  exact ⟨h, run_benchmark_kernel_once_per_chunk 1 schedNever clockId g0 h⟩

theorem run_benchmark_early_stop_witness :
    ((1 : Int) ≤ 1 ∧ schedAlways 0 = true) ∧
    ((run_benchmark 1 schedAlways clockId g0).result = none ∧
      (run_benchmark 1 schedAlways clockId g0).fault = false ∧
      (run_benchmark 1 schedAlways clockId g0).kernelCalls = 0 ∧
      workerFinished true (run_benchmark 1 schedAlways clockId g0) = none) :=
  ⟨⟨le_refl 1, rfl⟩, run_benchmark_early_stop 1 schedAlways clockId g0 le_rfl rfl⟩

theorem run_benchmark_chunk_sizes_witness :
    (1 : Int) ≤ 1 ∧
    (warmupChunkSize 1 = min 1000 (max 1 (Int.fdiv 1 100)) ∧
      chunkSize 1 = max 1 (Int.fdiv 1 100) ∧
      ((pyRange 0 1 (warmupChunkSize 1)).flatMap
          (fun i => pyRange i (min (i + warmupChunkSize 1) 1) 1)
        = pyRange 0 1 1) ∧
      ((pyRange 0 1 (chunkSize 1)).flatMap
          (fun i => pyRange i (min (i + chunkSize 1) 1) 1)
        = pyRange 0 1 1) ∧
      (warmupGo schedNever (pyRange 0 1 (warmupChunkSize 1)) 0).2
        = (pyRange 0 1 (warmupChunkSize 1)).length) :=
  ⟨le_refl 1, run_benchmark_chunk_sizes 1 (le_refl 1)⟩

theorem Proc8_always_inbounds_witness :
    ((List.replicate 51 (0 : Int)).length = 51 ∧
      (List.replicate 51 (List.replicate 51 (0 : Int))).length = 51 ∧
      (∀ r ∈ List.replicate 51 (List.replicate 51 (0 : Int)), r.length = 51)) ∧
    ((whileLoopRun 2 3 none).1 = 3 ∧
      (Proc8 (List.replicate 51 (0 : Int))
        (List.replicate 51 (List.replicate 51 (0 : Int))) 3 7).isSome = true) := by
  have h3 : ∀ r ∈ List.replicate 51 (List.replicate 51 (0 : Int)), r.length = 51 := by
    intro r hr
    rw [List.eq_of_mem_replicate hr]
    simp
  exact ⟨⟨by simp, by simp, h3⟩,
    Proc8_always_inbounds (List.replicate 51 0) (List.replicate 51 (List.replicate 51 0)) 7
      (by simp) (by simp) h3⟩

theorem Proc2_single_pass_witness :
    Proc2Go 'A' 0 (0 + 1) (0 + 10) 0 none = Proc2Res.ok (0 + 9 - 0) ∧
    Proc2 'A' 0 0 = some (0 + 9 - 0) ∧
    Proc2Go 'B' 0 (0 + 1) (0 + 10) 0 none = Proc2Res.unboundLocal ∧
    (∀ s2 i1, oneIterationPre g0 = some (s2, i1) → s2.char1Glob = 'A') :=
  ⟨((Proc2_single_pass 0 0 0 'A' g0).1 rfl).1,
    ((Proc2_single_pass 0 0 0 'A' g0).1 rfl).2,
    (Proc2_single_pass 0 0 0 'B' g0).2.1 (by decide),
    (Proc2_single_pass 0 0 0 'B' g0).2.2⟩

end Pystone
